import Mathlib

/-!
Verification of the Gan-Cube-App move pipeline.

The development shallowly embeds the two algorithmic cores of the repository:

* the 3x3x3 grid / animation state machine of the `Cube3D` component
  (`parseMoveNotation`, `executeMove`, `animateMove`, `getAffectedCubies`,
  `updateCubiePosition`, `resetCube`), and
* the GAN notification decoder `parseGanNotification` together with the
  keyboard-notation normalizer `getCubeNotation`.

Machine floats appear in the source only as coordinates of the form
`g * (cubeSize + spacing) = g * 1.05` with `g ∈ {-1,0,1}`; every such value is
represented here by its exact integer multiplier `g`, which is what
`Math.round(p / 1.05)` recovers in the source.  All definitions are
executable so that concrete runs of the embedded code can be checked by
`decide` / `rfl`.
-/

namespace GanCube

/-! ## Grid model and animation commit (Cube3D component) -/

/-- Rotation axes used by the face map of `parseMoveNotation`. -/
inductive Axis
  | x
  | y
  | z
deriving DecidableEq, Repr

/-- An integer grid vector: a `gridPosition` `{x, y, z}` of the source, and
also a mesh position expressed as the exact multiple of `cubeSize + spacing`. -/
structure V3 where
  x : Int
  y : Int
  z : Int
deriving DecidableEq, Repr

/-- Result of `parseMoveNotation`: the source returns
`{axis, direction, layer, duration: 300 * rotations}`.  The number of
rotations requested by a `2` modifier survives parsing only inside
`duration`. -/
structure ParsedMove where
  axis : Axis
  direction : Int
  layer : Int
  duration : Nat
deriving DecidableEq, Repr

/-- The `faceMap` table of `parseMoveNotation`: face letter to
(axis, direction, layer). -/
def faceMap (c : Char) : Option (Axis × Int × Int) :=
  if c = 'R' then some (Axis.x, 1, 1)
  else if c = 'L' then some (Axis.x, -1, -1)
  else if c = 'U' then some (Axis.y, 1, 1)
  else if c = 'D' then some (Axis.y, -1, -1)
  else if c = 'F' then some (Axis.z, 1, 1)
  else if c = 'B' then some (Axis.z, -1, -1)
  else none

/-- Embeds `parseMoveNotation`: the notation must match
`^([RLUDFB])(['2]?)$`; a `'` modifier flips the direction, a `2` modifier
doubles the animation duration (and nothing else). -/
def parseMoveNotation (s : String) : Option ParsedMove :=
  match s.data with
  | [f] => (faceMap f).map fun m => ⟨m.1, m.2.1, m.2.2, 300⟩
  | [f, suf] =>
    if suf = '\'' then (faceMap f).map fun m => ⟨m.1, -m.2.1, m.2.2, 300⟩
    else if suf = '2' then (faceMap f).map fun m => ⟨m.1, m.2.1, m.2.2, 600⟩
    else none
  | _ => none

/-- The grid-coordinate rotation of `updateCubiePosition`, by axis and
direction sign. -/
def rotateGrid (axis : Axis) (direction : Int) (p : V3) : V3 :=
  match axis with
  | Axis.x => ⟨p.x, if direction > 0 then -p.z else p.z, if direction > 0 then p.y else -p.y⟩
  | Axis.y => ⟨if direction > 0 then p.z else -p.z, p.y, if direction > 0 then -p.x else p.x⟩
  | Axis.z => ⟨if direction > 0 then p.y else -p.y, if direction > 0 then -p.x else p.x, p.z⟩

/-- Coordinate of a grid vector along an axis, as read by
`getAffectedCubies`. -/
def axisCoord (axis : Axis) (p : V3) : Int :=
  match axis with
  | Axis.x => p.x
  | Axis.y => p.y
  | Axis.z => p.z

/-- One sub-cube: the `userData` of a cubie mesh (its `gridPosition` and
`originalPosition`) together with the mesh `position`, positions stored as
exact multiples of `cubeSize + spacing`. -/
structure Cubie where
  gridPosition : V3
  originalPosition : V3
  position : V3
deriving DecidableEq, Repr

/-- The loop order of `createCube`: `x`, then `y`, then `z`, each over
`-1, 0, 1`. -/
def gridRange : List Int := [-1, 0, 1]

/-- The 27 cubies as `createCube` builds them: position and
`originalPosition` are the grid coordinate scaled by `cubeSize + spacing`. -/
def initialCubies : List Cubie :=
  gridRange.flatMap fun x => gridRange.flatMap fun y => gridRange.map fun z =>
    { gridPosition := ⟨x, y, z⟩, originalPosition := ⟨x, y, z⟩, position := ⟨x, y, z⟩ }

/-- All 27 grid coordinates, in the same order `createCube` assigns them. -/
def allCoords : List V3 :=
  gridRange.flatMap fun x => gridRange.flatMap fun y => gridRange.map fun z => ⟨x, y, z⟩

/-- Embeds `updateCubiePosition`: the grid position is rotated once around
the move's axis, and both the mesh position and `userData.originalPosition`
are overwritten with the new grid coordinate (scaled by
`cubeSize + spacing` in the source).  The `layer` argument is unused in the
source body and kept for faithfulness. -/
def updateCubiePosition (c : Cubie) (axis : Axis) (layer : Int) (direction : Int) : Cubie :=
  let ng := rotateGrid axis direction c.gridPosition
  { gridPosition := ng, originalPosition := ng, position := ng }

/-- The commit phase at the end of `animateMove`: every cubie selected by
`getAffectedCubies` (grid coordinate on the move's axis equal to the
layer) gets `updateCubiePosition` applied exactly once with the parsed
direction; the parsed `duration` does not influence the commit. -/
def commitMove (cs : List Cubie) (m : ParsedMove) : List Cubie :=
  cs.map fun c =>
    if axisCoord m.axis c.gridPosition = m.layer then
      updateCubiePosition c m.axis m.layer m.direction
    else c

/-- Effect of `executeMove` running one token to completion on the cubie
state: a token `parseMoveNotation` rejects makes the destructuring inside
`animateMove` throw; `executeMove` catches the error and the grid is left
unchanged. -/
def applyMove (cs : List Cubie) (t : String) : List Cubie :=
  match parseMoveNotation t with
  | none => cs
  | some m => commitMove cs m

/-- Sequential processing of tokens, in the FIFO order `executeMove`
drains its queue. -/
def applyMoves (cs : List Cubie) (ts : List String) : List Cubie :=
  ts.foldl applyMove cs

/-- Embeds `resetCube`: each cubie's mesh position is set back to
`userData.originalPosition`, its rotation cleared, and `gridPosition` is
recomputed as `Math.round(originalPosition / 1.05)` componentwise — which
is exactly the integer multiple stored in `originalPosition`.
`originalPosition` itself is not modified, and the move queue is not
touched by the source function. -/
def resetCube (cs : List Cubie) : List Cubie :=
  cs.map fun c =>
    { gridPosition := c.originalPosition
      originalPosition := c.originalPosition
      position := c.originalPosition }

/-- Engine state visible to `executeMove`: the cubie array and the pending
move queue `moveQueueRef`. -/
structure EngineState where
  cubies : List Cubie
  queue : List String
deriving DecidableEq, Repr

/-- The busy path of `executeMove`: when a move is already animating, the
raw token is appended to `moveQueueRef` without any validation. -/
def enqueueWhileBusy (s : EngineState) (t : String) : EngineState :=
  { s with queue := s.queue ++ [t] }

/-- Engine-level effect of the Reset button: `resetCube` iterates over the
cubies only; `moveQueueRef` does not occur in its body and is left as it
is. -/
def resetEngine (s : EngineState) : EngineState :=
  { s with cubies := resetCube s.cubies }

/-- One event in a history of the grid state: a completed move commit, or a
press of the Reset button. -/
inductive EngineOp
  | move (t : String)
  | reset

/-- Apply one history event to the cubie state. -/
def stepOp (cs : List Cubie) (op : EngineOp) : List Cubie :=
  match op with
  | EngineOp.move t => applyMove cs t
  | EngineOp.reset => resetCube cs

/-- Replay an arbitrary history of commits and resets. -/
def runOps (cs : List Cubie) (ops : List EngineOp) : List Cubie :=
  ops.foldl stepOp cs

/-- The grid coordinates of a cubie list. -/
def coordsOf (cs : List Cubie) : List V3 :=
  cs.map (·.gridPosition)

/-! ## Notation normalizer (`getCubeNotation` in the cube-state module) -/

/-- ECMAScript whitespace as a code point predicate: the set matched by the
regex class `\s` and removed by `String.prototype.trim` (WhiteSpace plus
LineTerminator). -/
def jsWhitespaceCp (n : Nat) : Bool :=
  [9, 10, 11, 12, 13, 32, 0xA0, 0x1680, 0x2028, 0x2029,
    0x202F, 0x205F, 0x3000, 0xFEFF].contains n
  || (0x2000 ≤ n && n ≤ 0x200A)

/-- ECMAScript whitespace on characters. -/
def jsWhitespace (c : Char) : Bool :=
  jsWhitespaceCp c.toNat

/-- Embeds JavaScript `String.prototype.trim`. -/
def jsTrim (s : String) : String :=
  ⟨((s.data.dropWhile jsWhitespace).reverse.dropWhile jsWhitespace).reverse⟩

/-- Face letters of the class `[URFDLBurfdlb]` in `getCubeNotation`. -/
def isNormFace (c : Char) : Bool :=
  c = 'U' || c = 'R' || c = 'F' || c = 'D' || c = 'L' || c = 'B' ||
  c = 'u' || c = 'r' || c = 'f' || c = 'd' || c = 'l' || c = 'b'

/-- The test `/^[URFDLBurfdlb][2']?$/` applied by `getCubeNotation`. -/
def matchesNormToken (s : String) : Bool :=
  match s.data with
  | [f] => isNormFace f
  | [f, m] => isNormFace f && (m = '2' || m = '\'')
  | _ => false

/-- Embeds `getCubeNotation`: the input is trimmed; when the trimmed token
matches the pattern, the face letter is uppercased and the modifier kept;
otherwise the trimmed token is returned.  (The source's non-string branch
returning `""` is outside the embedding's `String` domain.) -/
def getCubeNotation (token : String) : String :=
  let clean := jsTrim token
  if matchesNormToken clean then
    match clean.data with
    | f :: suffix => ⟨f.toUpper :: suffix⟩
    | [] => clean
  else clean

/-- Canonical form named by the claim: uppercase face letter followed by the
original modifier. -/
def canonicalForm (s : String) : String :=
  match s.data with
  | f :: rest => ⟨f.toUpper :: rest⟩
  | [] => s

/-! ## GAN notification decoder (`parseGanNotification`) -/

/-- Continuation byte test of the WHATWG UTF-8 decoder. -/
def utf8Cont (b : Nat) : Bool :=
  0x80 ≤ b && b ≤ 0xBF

/-- Lower bound on the first continuation byte, per lead byte
(the WHATWG UTF-8 decoder's `utf-8 lower boundary`). -/
def utf8Lo (lead : Nat) : Nat :=
  if lead = 0xE0 then 0xA0 else if lead = 0xF0 then 0x90 else 0x80

/-- Upper bound on the first continuation byte, per lead byte. -/
def utf8Hi (lead : Nat) : Nat :=
  if lead = 0xED then 0x9F else if lead = 0xF4 then 0x8F else 0xBF

/-- Fuel-driven main loop of the UTF-8 decoder.  Every step consumes at
least one byte and one unit of fuel, so fuel equal to the byte count (as
`utf8Decode` supplies) is never exhausted; the fuel only makes the
recursion structural. -/
def utf8DecodeGo : Nat → List Nat → List Nat
  | _, [] => []
  | 0, _ :: _ => []
  | fuel + 1, b :: rest =>
    if b < 0x80 then b :: utf8DecodeGo fuel rest
    else if 0xC2 ≤ b && b ≤ 0xDF then
      match rest with
      | [] => [0xFFFD]
      | c1 :: r1 =>
        if utf8Cont c1 then ((b - 0xC0) * 0x40 + (c1 - 0x80)) :: utf8DecodeGo fuel r1
        else 0xFFFD :: utf8DecodeGo fuel rest
    else if 0xE0 ≤ b && b ≤ 0xEF then
      match rest with
      | [] => [0xFFFD]
      | c1 :: r1 =>
        if utf8Lo b ≤ c1 && c1 ≤ utf8Hi b then
          match r1 with
          | [] => [0xFFFD]
          | c2 :: r2 =>
            if utf8Cont c2 then
              ((b - 0xE0) * 0x1000 + (c1 - 0x80) * 0x40 + (c2 - 0x80)) ::
                utf8DecodeGo fuel r2
            else 0xFFFD :: utf8DecodeGo fuel r1
        else 0xFFFD :: utf8DecodeGo fuel rest
    else if 0xF0 ≤ b && b ≤ 0xF4 then
      match rest with
      | [] => [0xFFFD]
      | c1 :: r1 =>
        if utf8Lo b ≤ c1 && c1 ≤ utf8Hi b then
          match r1 with
          | [] => [0xFFFD]
          | c2 :: r2 =>
            if utf8Cont c2 then
              match r2 with
              | [] => [0xFFFD]
              | c3 :: r3 =>
                if utf8Cont c3 then
                  ((b - 0xF0) * 0x40000 + (c1 - 0x80) * 0x1000 +
                    (c2 - 0x80) * 0x40 + (c3 - 0x80)) :: utf8DecodeGo fuel r3
                else 0xFFFD :: utf8DecodeGo fuel r2
            else 0xFFFD :: utf8DecodeGo fuel r1
        else 0xFFFD :: utf8DecodeGo fuel rest
    else 0xFFFD :: utf8DecodeGo fuel rest

/-- WHATWG UTF-8 decoding with U+FFFD replacement, as `TextDecoder("utf-8")`
performs it with the default non-fatal mode: maximal-subpart errors emit
one replacement and restart at the offending byte. -/
def utf8Decode (p : List Nat) : List Nat :=
  utf8DecodeGo p.length p

/-- Text produced by `new TextDecoder("utf-8").decode(...)`, as code points:
UTF-8 decoding with replacement, then removal of a leading byte-order mark
(a leading U+FEFF can only arise from the byte prefix EF BB BF, which the
default `ignoreBOM: false` strips). -/
def textDecode (p : List Nat) : List Nat :=
  match utf8Decode p with
  | 0xFEFF :: rest => rest
  | cps => cps

/-- Separator class of the split regex `/[\s,;]+/`. -/
def isSepCp (n : Nat) : Bool :=
  jsWhitespaceCp n || n = 44 || n = 59

/-- Trim on code-point lists (JS `trim` on the decoded text). -/
def cpTrim (l : List Nat) : List Nat :=
  ((l.dropWhile jsWhitespaceCp).reverse.dropWhile jsWhitespaceCp).reverse

/-- Accumulator pass of `splitTokens`. -/
def splitAux : List Nat → List Nat → List (List Nat)
  | cur, [] => if cur.isEmpty then [] else [cur.reverse]
  | cur, c :: rest =>
    if isSepCp c then
      if cur.isEmpty then splitAux [] rest else cur.reverse :: splitAux [] rest
    else splitAux (c :: cur) rest

/-- Net effect of `text.split(/[\s,;]+/).map(s => s.trim()).filter(Boolean)`:
the maximal runs of non-separator code points, in order.  The split's empty
edge fragments are removed by the `filter(Boolean)`, and the inner `trim` is
the identity on the runs because every whitespace code point is itself a
separator. -/
def splitTokens (l : List Nat) : List (List Nat) :=
  splitAux [] l

/-- Character class of the validation regex
`/^[URFDLBxyzMESurfdbxyz2']+$/` (no lowercase `l`), as code points. -/
def isMoveCharCp (n : Nat) : Bool :=
  [85, 82, 70, 68, 76, 66, 120, 121, 122, 77, 69, 83,
    117, 114, 102, 100, 98, 50, 39].contains n

/-- One token passes the validation regex: nonempty, all characters in the
move character class. -/
def tokenValid (t : List Nat) : Bool :=
  !t.isEmpty && t.all isMoveCharCp

/-- Render a code-point token back to a string.  All code points produced by
`utf8Decode` are scalar values, so `Char.ofNat` is exact here. -/
def cpsToString (cps : List Nat) : String :=
  ⟨cps.map Char.ofNat⟩

/-- Strategy 1 of `parseGanNotification`: decode the payload as UTF-8 text;
when the trimmed text is nonempty, split it on whitespace, commas and
semicolons and accept the token list — possibly empty — exactly when every
token passes the validation regex.  `none` means the strategy falls
through.  (`TextDecoder` in non-fatal mode never throws, so the source's
`catch` branch is unreachable.) -/
def textStrategy (p : List Nat) : Option (List String) :=
  let text := cpTrim (textDecode p)
  if text.isEmpty then none
  else
    let tokens := splitTokens text
    if tokens.all tokenValid then some (tokens.map cpsToString) else none

/-- The fixed 12-entry table of the byte-index strategies. -/
def idxToMove : List String :=
  ["U", "R", "F", "D", "L", "B", "U'", "R'", "F'", "D'", "L'", "B'"]

/-- The `faceMap` of the nibble-packed strategy: indices 0..5 are face
letters, 6 and 7 are `null`. -/
def faceChar8 (face : Nat) : Option String :=
  [some "U", some "R", some "F", some "D", some "L", some "B",
    none, none].getD face none

/-- The nibble-packed scan: for each byte, `face = byte & 0x07` and
`turn = (byte >> 3) & 0x03`; a `null` face letter skips the byte
(`continue`), otherwise `turn = 1` appends `'`, `turn = 2` appends `2`, and
any other turn value (0 or 3) pushes the plain face letter. -/
def nibbleParse : List Nat → List String
  | [] => []
  | b :: rest =>
    match faceChar8 (b % 8) with
    | none => nibbleParse rest
    | some fc =>
      (if b / 8 % 4 = 1 then fc ++ "'"
        else if b / 8 % 4 = 2 then fc ++ "2"
        else fc) :: nibbleParse rest

/-- Embeds `parseGanNotification` on the payload bytes: the text strategy
first (its result is returned whenever every token validates, even when the
token list is empty); then the single-byte index strategy; then the
all-bytes index strategy; then the nibble-packed scan; `[]` when nothing
matched. -/
def parseGanNotification (p : List Nat) : List String :=
  match textStrategy p with
  | some tokens => tokens
  | none =>
    if p.length = 1 ∧ p.headD 0 < 12 then [idxToMove.getD (p.headD 0) ""]
    else if p ≠ [] ∧ ∀ b ∈ p, b < 12 then p.map fun b => idxToMove.getD b ""
    else
      let moves := nibbleParse p
      if moves.length > 0 then moves else []

/-! ## The move-token pattern of the claims -/

/-- Face letters of the animation engine's pattern `^[RLUDFB]['2]?$`. -/
def isEngineFace (c : Char) : Bool :=
  c = 'R' || c = 'L' || c = 'U' || c = 'D' || c = 'F' || c = 'B'

/-- The wire-contract regex `^[RLUDFB]['2]?$` named by the claims, as a
decidable predicate on strings. -/
def matchesMoveToken (s : String) : Bool :=
  match s.data with
  | [f] => isEngineFace f
  | [f, m] => isEngineFace f && (m = '\'' || m = '2')
  | _ => false

/-! ## Lemmas on the grid rotation -/

/-- Only the sign of the direction matters in `updateCubiePosition`. -/
lemma rotateGrid_sign (a : Axis) (d : Int) (p : V3) :
    rotateGrid a d p = rotateGrid a (if 0 < d then 1 else -1) p := by
  by_cases hd : 0 < d <;> cases a <;> simp [rotateGrid, hd]

/-- Every coordinate of a point of the grid lies in `{-1, 0, 1}`. -/
lemma axisCoord_range (a : Axis) : ∀ p ∈ allCoords, axisCoord a p = -1 ∨
    axisCoord a p = 0 ∨ axisCoord a p = 1 := by
  cases a <;> decide

/-- A committed layer rotation permutes the 27 grid coordinates, for every
axis, every direction and every layer value. -/
lemma layerStep_perm (a : Axis) (d l : Int) :
    (allCoords.map fun p => if axisCoord a p = l then rotateGrid a d p else p).Perm
      allCoords := by
  have hrw : ∀ p, rotateGrid a d p = rotateGrid a (if 0 < d then 1 else -1) p :=
    fun p => rotateGrid_sign a d p
  simp only [hrw]
  by_cases hl : l = -1 ∨ l = 0 ∨ l = 1
  · rcases hl with rfl | rfl | rfl <;> by_cases hd : 0 < d <;>
      simp only [if_pos, if_neg, hd, ite_true, ite_false] <;> cases a <;> decide
  · have hid : ∀ p ∈ allCoords,
        (if axisCoord a p = l then rotateGrid a (if 0 < d then 1 else -1) p else p) = p := by
      intro p hp
      rw [if_neg]
      rcases axisCoord_range a p hp with h | h | h <;> omega
    have hmap : (allCoords.map fun p =>
        if axisCoord a p = l then rotateGrid a (if 0 < d then 1 else -1) p else p)
        = allCoords := (List.map_congr_left hid).trans (List.map_id allCoords)
    rw [hmap]

/-- The grid coordinates after a commit are the pointwise layer rotation of
the grid coordinates before it. -/
lemma coordsOf_commitMove (cs : List Cubie) (m : ParsedMove) :
    coordsOf (commitMove cs m) = (coordsOf cs).map fun p =>
      if axisCoord m.axis p = m.layer then rotateGrid m.axis m.direction p else p := by
  unfold coordsOf commitMove
  rw [List.map_map, List.map_map]
  apply List.map_congr_left
  intro c _
  by_cases h : axisCoord m.axis c.gridPosition = m.layer <;>
    simp [Function.comp, h, updateCubiePosition]

/-- Field coherence maintained by every commit and reset: `originalPosition`
and the mesh position always hold (the scaled copy of) the current grid
coordinate. -/
def positionsCoherent (cs : List Cubie) : Prop :=
  ∀ c ∈ cs, c.originalPosition = c.gridPosition ∧ c.position = c.gridPosition

lemma coordsOf_perm_applyMove (cs : List Cubie) (t : String)
    (h : (coordsOf cs).Perm allCoords) : (coordsOf (applyMove cs t)).Perm allCoords := by
  unfold applyMove
  cases hp : parseMoveNotation t with
  | none => exact h
  | some m =>
    rw [coordsOf_commitMove]
    exact (h.map _).trans (layerStep_perm m.axis m.direction m.layer)

lemma positionsCoherent_applyMove (cs : List Cubie) (t : String)
    (h : positionsCoherent cs) : positionsCoherent (applyMove cs t) := by
  unfold applyMove
  cases hp : parseMoveNotation t with
  | none => exact h
  | some m =>
    intro c hc
    obtain ⟨c0, hc0, rfl⟩ := List.mem_map.mp hc
    by_cases hsel : axisCoord m.axis c0.gridPosition = m.layer <;>
      simp [hsel, updateCubiePosition]
    exact h c0 hc0

lemma positionsCoherent_resetCube (cs : List Cubie) :
    positionsCoherent (resetCube cs) := by
  intro c hc
  obtain ⟨c0, _, rfl⟩ := List.mem_map.mp hc
  simp

/-- When positions are coherent, `resetCube` does not change any grid
coordinate at all. -/
lemma coordsOf_resetCube (cs : List Cubie) (h : positionsCoherent cs) :
    coordsOf (resetCube cs) = coordsOf cs := by
  unfold coordsOf resetCube
  rw [List.map_map]
  apply List.map_congr_left
  intro c hc
  simp [(h c hc).1]

lemma runOps_invariant (ops : List EngineOp) : ∀ cs : List Cubie,
    (coordsOf cs).Perm allCoords → positionsCoherent cs →
    (coordsOf (runOps cs ops)).Perm allCoords ∧ positionsCoherent (runOps cs ops) := by
  induction ops with
  | nil => exact fun cs h1 h2 => ⟨h1, h2⟩
  | cons op rest ih =>
    intro cs h1 h2
    cases op with
    | move t =>
      exact ih (applyMove cs t) (coordsOf_perm_applyMove cs t h1)
        (positionsCoherent_applyMove cs t h2)
    | reset =>
      refine ih (resetCube cs) ?_ (positionsCoherent_resetCube cs)
      rw [coordsOf_resetCube cs h2]
      exact h1

/-! ## Pattern lemmas for the move-token regex -/

/-- A face letter outside `[RLUDFB]` has no `faceMap` entry. -/
lemma faceMap_eq_none {f : Char} (h : isEngineFace f = false) : faceMap f = none := by
  unfold isEngineFace at h
  simp only [Bool.or_eq_false_iff, decide_eq_false_iff_not] at h
  obtain ⟨⟨⟨⟨⟨h1, h2⟩, h3⟩, h4⟩, h5⟩, h6⟩ := h
  simp [faceMap, h1, h2, h3, h4, h5, h6]

/-- A token outside the pattern `^[RLUDFB]['2]?$` is rejected by
`parseMoveNotation`. -/
lemma parseMoveNotation_eq_none {s : String} (h : matchesMoveToken s = false) :
    parseMoveNotation s = none := by
  rcases hs : s.data with _ | ⟨f, _ | ⟨m, rest⟩⟩
  · simp [parseMoveNotation, hs]
  · have hf : isEngineFace f = false := by simpa [matchesMoveToken, hs] using h
    simp [parseMoveNotation, hs, faceMap_eq_none hf]
  · rcases rest with _ | ⟨c, rest'⟩
    · have h2 : isEngineFace f = false ∨ (¬m = '\'' ∧ ¬m = '2') := by
        have := h
        simp only [matchesMoveToken, hs, Bool.and_eq_false_iff,
          Bool.or_eq_false_iff, decide_eq_false_iff_not] at this
        exact this.imp id id
      rcases h2 with hf | ⟨hm1, hm2⟩
      · simp [parseMoveNotation, hs, faceMap_eq_none hf]
      · simp [parseMoveNotation, hs, hm1, hm2]
    · simp [parseMoveNotation, hs]

/-! ## Claim theorems -/

/-- C7: for every axis, every direction in `{+1, -1}` and every grid
coordinate in `{-1,0,1}³`, applying the committed quarter-turn rotation of
`updateCubiePosition` four times returns the original coordinate. -/
theorem rotateGrid_four_cycle (a : Axis) (d : Int) (p : V3)
    (hd : d = 1 ∨ d = -1) (hp : p ∈ allCoords) :
    rotateGrid a d (rotateGrid a d (rotateGrid a d (rotateGrid a d p))) = p := by
  rcases hd with rfl | rfl <;> cases a <;> revert p <;> decide

/-- Witness for `rotateGrid_four_cycle` at axis `x`, direction `1`,
coordinate `(1, 1, 0)`. -/
theorem rotateGrid_four_cycle_witness :
    rotateGrid Axis.x 1 (rotateGrid Axis.x 1 (rotateGrid Axis.x 1
      (rotateGrid Axis.x 1 ⟨1, 1, 0⟩))) = ⟨1, 1, 0⟩ :=
  rotateGrid_four_cycle Axis.x 1 ⟨1, 1, 0⟩ (Or.inl rfl) (by decide)

/-- C2: starting from `createCube`'s solved layout, after any history of
completed move commits and `resetCube` calls — in particular initially, and
before and after every commit — the grid coordinates of the 27 sub-cubes
are a permutation of `{-1,0,1}³`: no two share a coordinate and none is
missing. -/
theorem grid_coords_bijection (ops : List EngineOp) :
    (coordsOf (runOps initialCubies ops)).Perm allCoords :=
  (runOps_invariant ops initialCubies (by decide)
    (by unfold positionsCoherent; decide)).1

/-- C1 (code bug): committing the half-turn token `"R2"` performs the
quarter-turn grid rotation only once — `parseMoveNotation` folds the `2`
modifier into the animation duration alone and the commit ignores the
duration — so committing `"R2"` twice does not return the sub-cubes to
their pre-sequence coordinates: the cubie starting at `(1, 1, 0)` ends at
`(1, -1, 0)`. -/
theorem half_turn_commits_one_quarter :
    (∀ cs : List Cubie, applyMove cs "R2" = applyMove cs "R") ∧
    coordsOf (applyMoves initialCubies ["R2", "R2"]) ≠ coordsOf initialCubies ∧
    (applyMoves initialCubies ["R2", "R2"]).map (·.gridPosition.y) ≠
      initialCubies.map (·.gridPosition.y) :=
  ⟨fun _ => rfl, by decide, by decide⟩

/-- C3 (code bug): after committing `"R"`, pressing Reset leaves the cubie
state exactly as it was after the move — every commit overwrites
`userData.originalPosition`, so `resetCube` snaps back to the post-move
coordinates, not the solved ones — and the pending move queue is left
untouched. -/
theorem resetCube_keeps_post_move_state :
    resetCube (applyMove initialCubies "R") = applyMove initialCubies "R" ∧
    applyMove initialCubies "R" ≠ initialCubies ∧
    resetEngine ⟨applyMove initialCubies "R", ["U"]⟩ =
      ⟨applyMove initialCubies "R", ["U"]⟩ := by
  have h1 : resetCube (applyMove initialCubies "R") = applyMove initialCubies "R" := by
    decide
  refine ⟨h1, by decide, ?_⟩
  show EngineState.mk (resetCube (applyMove initialCubies "R")) ["U"] = _
  rw [h1]

/-- C8 (counterexample): the token `"X"` does not match `^[RLUDFB]['2]?$`,
yet when the engine is busy `executeMove` appends it to the move queue
unvalidated — it is not rejected before entering the queue. -/
theorem invalid_token_enters_queue :
    matchesMoveToken "X" = false ∧
    (enqueueWhileBusy ⟨initialCubies, []⟩ "X").queue = ["X"] := by
  exact ⟨by decide, rfl⟩

/-- C8 (amended): a token that does not match `^[RLUDFB]['2]?$` is dropped
at execution time, not before entering the queue: while the engine is busy
the raw token is enqueued unvalidated; when it is executed,
`parseMoveNotation` fails, the error is caught, the grid state is left
unchanged, and the pipeline continues with the remaining queued moves. -/
theorem invalid_token_dropped_at_execution (t : String) (cs : List Cubie)
    (q rest : List String) (h : matchesMoveToken t = false) :
    enqueueWhileBusy ⟨cs, q⟩ t = ⟨cs, q ++ [t]⟩ ∧
    applyMove cs t = cs ∧
    applyMoves cs (t :: rest) = applyMoves cs rest := by
  have hnone := parseMoveNotation_eq_none h
  refine ⟨rfl, ?_, ?_⟩
  · unfold applyMove
    rw [hnone]
  · show List.foldl applyMove cs (t :: rest) = List.foldl applyMove cs rest
    rw [List.foldl_cons]
    have : applyMove cs t = cs := by unfold applyMove; rw [hnone]
    rw [this]

/-- Witness for `invalid_token_dropped_at_execution` at token `"X"` with one
further queued move. -/
theorem invalid_token_dropped_at_execution_witness :
    enqueueWhileBusy ⟨initialCubies, []⟩ "X" = ⟨initialCubies, ["X"]⟩ ∧
    applyMove initialCubies "X" = initialCubies ∧
    applyMoves initialCubies ["X", "R"] = applyMoves initialCubies ["R"] :=
  invalid_token_dropped_at_execution "X" initialCubies [] ["R"] (by decide)

/-! ## Lemmas and theorems for the notation normalizer -/

/-- No face letter of the normalizer's pattern is whitespace. -/
lemma normFace_not_ws {c : Char} (h : isNormFace c = true) : jsWhitespace c = false := by
  unfold isNormFace at h
  simp only [Bool.or_eq_true, decide_eq_true_eq] at h
  rcases h with ⟨⟨⟨⟨⟨⟨⟨⟨⟨⟨⟨rfl | rfl⟩ | rfl⟩ | rfl⟩ | rfl⟩ | rfl⟩ | rfl⟩ |
    rfl⟩ | rfl⟩ | rfl⟩ | rfl⟩ | rfl⟩ | rfl <;> rfl

/-- A string matching the normalizer's pattern has no surrounding
whitespace, so the source's `trim` leaves it unchanged. -/
lemma jsTrim_of_matchesNorm {s : String} (h : matchesNormToken s = true) :
    jsTrim s = s := by
  obtain ⟨l⟩ := s
  rcases hl : l with _ | ⟨f, _ | ⟨m, rest⟩⟩
  · subst hl; simp [matchesNormToken] at h
  · subst hl
    have hf : isNormFace f = true := by simpa [matchesNormToken] using h
    have hwf := normFace_not_ws hf
    simp [jsTrim, List.dropWhile, hwf]
  · rcases rest with _ | ⟨c, rest'⟩
    · subst hl
      have h2 : isNormFace f = true ∧ (m = '2' ∨ m = '\'') := by
        simpa [matchesNormToken] using h
      have hwf := normFace_not_ws h2.1
      have hwm : jsWhitespace m = false := by rcases h2.2 with rfl | rfl <;> rfl
      simp [jsTrim, List.dropWhile, hwf, hwm]
    · subst hl; simp [matchesNormToken] at h

/-- C9 (counterexample): `" R"` does not match `^[URFDLBurfdlb][2']?$`, yet
`getCubeNotation " R"` returns `"R"`, not the input unchanged: the source
trims before matching and returns the trimmed token. -/
theorem getCubeNotation_changes_nonmatching_input :
    matchesNormToken " R" = false ∧ getCubeNotation " R" = "R" ∧
    (" R" : String) ≠ "R" := by
  refine ⟨by decide, by decide, by decide⟩

/-- C9 (amended): `getCubeNotation` first trims its input; whenever the
trimmed input matches `^[URFDLBurfdlb][2']?$` it returns the canonical form
of the trimmed token (uppercase face, original modifier), and whenever the
trimmed input does not match it returns the trimmed input — in neither case
necessarily the input unchanged.  As a pure function of its argument it has
no side effects. -/
theorem getCubeNotation_normalizes (s : String) :
    (matchesNormToken (jsTrim s) = true →
      getCubeNotation s = canonicalForm (jsTrim s)) ∧
    (matchesNormToken (jsTrim s) = false → getCubeNotation s = jsTrim s) := by
  constructor
  · intro h
    unfold getCubeNotation
    rw [if_pos h]
    rcases hdata : (jsTrim s).data with _ | ⟨f, rest⟩ <;>
      simp [canonicalForm, hdata]
  · intro h
    unfold getCubeNotation
    rw [if_neg (by simp [h])]

/-- Witness for `getCubeNotation_normalizes`: the padded `" r2"` trims to a
matching token and is canonicalized to `"R2"`, and `" X "` trims to the
non-matching `"X"` and is returned trimmed. -/
theorem getCubeNotation_normalizes_witness :
    getCubeNotation " r2" = "R2" ∧ getCubeNotation " X " = "X" :=
  ⟨((getCubeNotation_normalizes " r2").1 (by decide)).trans (by decide),
    by have := (getCubeNotation_normalizes " X ").2 (by decide)
       rw [this]; decide⟩

/-! ## Lemmas and theorems for the decoder -/

/-- The nibble strategy's face table on valid faces agrees with the first
six entries of the single-byte table. -/
lemma faceChar8_some {k : Nat} (h : k ≤ 5) :
    faceChar8 k = some (idxToMove.getD k "") := by
  rcases (by omega : k = 0 ∨ k = 1 ∨ k = 2 ∨ k = 3 ∨ k = 4 ∨ k = 5) with
    rfl | rfl | rfl | rfl | rfl | rfl <;> rfl

/-- The nibble strategy's face table is `null` exactly on faces 6 and 7. -/
lemma faceChar8_none_iff (b : Nat) : faceChar8 (b % 8) = none ↔ 6 ≤ b % 8 := by
  have hm : b % 8 < 8 := Nat.mod_lt _ (by norm_num)
  rcases (by omega : b % 8 = 0 ∨ b % 8 = 1 ∨ b % 8 = 2 ∨ b % 8 = 3 ∨ b % 8 = 4 ∨
    b % 8 = 5 ∨ b % 8 = 6 ∨ b % 8 = 7) with h | h | h | h | h | h | h | h <;>
    rw [h] <;> simp [faceChar8]

/-- The nibble scan is empty exactly when every byte's face field is
invalid. -/
lemma nibbleParse_eq_nil_iff (p : List Nat) :
    nibbleParse p = [] ↔ ∀ b ∈ p, 6 ≤ b % 8 := by
  induction p with
  | nil => simp [nibbleParse]
  | cons b rest ih =>
    by_cases h6 : 6 ≤ b % 8
    · have hn : faceChar8 (b % 8) = none := (faceChar8_none_iff b).mpr h6
      simp [nibbleParse, hn, ih, h6]
    · obtain ⟨f, hf⟩ : ∃ f, faceChar8 (b % 8) = some f := by
        cases hfc : faceChar8 (b % 8) with
        | none => exact absurd ((faceChar8_none_iff b).mp hfc) h6
        | some f => exact ⟨f, rfl⟩
      simp [nibbleParse, hf, h6]

/-- C6 (counterexample): byte 24 has face field 0 and turn field 3, and the
nibble-packed scan produces the plain token `"U"` for it — a reserved turn
value does not suppress the token. -/
theorem nibble_turn3_produces_token :
    24 / 8 % 4 = 3 ∧ nibbleParse [24] = ["U"] ∧ nibbleParse [24] ≠ [] := by
  refine ⟨rfl, rfl, by decide⟩

/-- C6 (amended): in the nibble-packed strategy, a face field of 6 or 7
makes the scan skip that byte and continue; a turn field of 1 appends `'`
and 2 appends `2` to the face letter; turn fields 0 and 3 both yield the
plain quarter-turn token — turn 3 is not ignored. -/
theorem nibble_strategy_per_byte (b : Nat) (rest : List Nat) :
    (b % 8 = 6 ∨ b % 8 = 7 → nibbleParse (b :: rest) = nibbleParse rest) ∧
    (b % 8 ≤ 5 → b / 8 % 4 = 0 → ∃ f, faceChar8 (b % 8) = some f ∧
      nibbleParse (b :: rest) = f :: nibbleParse rest) ∧
    (b % 8 ≤ 5 → b / 8 % 4 = 1 → ∃ f, faceChar8 (b % 8) = some f ∧
      nibbleParse (b :: rest) = (f ++ "'") :: nibbleParse rest) ∧
    (b % 8 ≤ 5 → b / 8 % 4 = 2 → ∃ f, faceChar8 (b % 8) = some f ∧
      nibbleParse (b :: rest) = (f ++ "2") :: nibbleParse rest) ∧
    (b % 8 ≤ 5 → b / 8 % 4 = 3 → ∃ f, faceChar8 (b % 8) = some f ∧
      nibbleParse (b :: rest) = f :: nibbleParse rest) := by
  refine ⟨?_, ?_, ?_, ?_, ?_⟩
  · intro h
    have hn : faceChar8 (b % 8) = none := by
      rcases h with h | h <;> rw [h] <;> simp [faceChar8]
    simp [nibbleParse, hn]
  all_goals
    intro hface hturn
    refine ⟨idxToMove.getD (b % 8) "", faceChar8_some hface, ?_⟩
    simp [nibbleParse, faceChar8_some hface, hturn]

/-- Witness for `nibble_strategy_per_byte`: byte 14 (face 6) is skipped,
byte 24 (turn 3) yields a plain token, byte 9 (face 1, turn 1) yields a
prime token. -/
theorem nibble_strategy_per_byte_witness :
    nibbleParse [14] = nibbleParse [] ∧
    (∃ f, faceChar8 (24 % 8) = some f ∧ nibbleParse [24] = f :: nibbleParse []) ∧
    (∃ f, faceChar8 (9 % 8) = some f ∧ nibbleParse [9] = (f ++ "'") :: nibbleParse []) :=
  ⟨(nibble_strategy_per_byte 14 []).1 (Or.inl rfl),
    (nibble_strategy_per_byte 24 []).2.2.2.2 (by decide) (by decide),
    (nibble_strategy_per_byte 9 []).2.2.1 (by decide) (by decide)⟩

/-- C4 (counterexample): decoding the single byte 12 does not yield the
empty sequence: byte 12 decodes to a whitespace character, so the text
strategy falls through, and the nibble-packed strategy turns face 4, turn 1
into `"L'"`. -/
theorem decode_byte12_nonempty :
    parseGanNotification [12] = ["L'"] ∧ parseGanNotification [12] ≠ [] := by
  refine ⟨by decide, by decide⟩

/-- C5 (counterexample): decoding the text payload `"R U X"` yields the
nibble-packed fallback output, not the empty sequence. -/
theorem decode_RUX_nonempty :
    parseGanNotification [82, 32, 85, 32, 88] ≠ [] := by decide

/-- C5 (amended): decoding the text payload `"R U R'"` yields exactly
`["R", "U", "R'"]`; for `"R U X"` the invalid token `X` makes the text
strategy reject the whole payload with no partial token emission, but the
decoder then falls through to the binary strategies and the nibble-packed
scan of the character codes yields `["F2", "U", "B2", "U", "U"]`. -/
theorem decode_text_payloads :
    parseGanNotification [82, 32, 85, 32, 82, 39] = ["R", "U", "R'"] ∧
    textStrategy [82, 32, 85, 32, 88] = none ∧
    parseGanNotification [82, 32, 85, 32, 88] = ["F2", "U", "B2", "U", "U"] := by
  refine ⟨by decide, by decide, by decide⟩

/-- C4 (amended): decoding the single byte 0 yields exactly `["U"]` and 7
yields exactly `["R'"]`, but a single byte of value 12 or greater does not
always yield `[]`: among the bytes 12..255, the decoder yields the empty
sequence exactly for the separator characters `,` (44) and `;` (59) —
whose text split validly produces no token — and for the bytes whose low
three bits are 6 or 7 other than the move characters `'` (39), `F` (70)
and `f` (102). -/
theorem single_byte_decode :
    parseGanNotification [0] = ["U"] ∧ parseGanNotification [7] = ["R'"] ∧
    ∀ b : Nat, b < 256 → 12 ≤ b →
      (parseGanNotification [b] = [] ↔
        b = 44 ∨ b = 59 ∨ (6 ≤ b % 8 ∧ b ≠ 39 ∧ b ≠ 70 ∧ b ≠ 102)) := by
  refine ⟨by decide, by decide, ?_⟩
  set_option maxRecDepth 4000 in decide

/-- Witness for `single_byte_decode` at byte 12: the characterization
instantiated there, with both sides false (`parseGanNotification [12]` is
`["L'"]`). -/
theorem single_byte_decode_witness :
    parseGanNotification [12] = [] ↔
      (12 : Nat) = 44 ∨ (12 : Nat) = 59 ∨
        (6 ≤ 12 % 8 ∧ (12 : Nat) ≠ 39 ∧ (12 : Nat) ≠ 70 ∧ (12 : Nat) ≠ 102) :=
  single_byte_decode.2.2 12 (by decide) (by decide)

/-- C10 (counterexample): the payload consisting of the single byte 44
(a comma) decodes to the empty sequence although its low three bits are 4:
the text strategy validly splits the text `","` into zero tokens. -/
theorem decode_comma_empty :
    parseGanNotification [44] = [] ∧ 44 % 8 ≤ 5 := by
  refine ⟨by decide, by decide⟩

/-- C10 (amended): the decoder returns the empty sequence only if the text
strategy itself validly produced an empty token list (a payload whose
decoded text is nonblank but consists of separators only), or the payload
is empty or every byte has low three bits 6 or 7; conversely a payload
containing a byte with low three bits at most 5 on which the text strategy
does not return the valid-empty result decodes to at least one token. -/
lemma parseGan_of_textStrategy_some {p : List Nat} {ts : List String}
    (h : textStrategy p = some ts) : parseGanNotification p = ts := by
  unfold parseGanNotification
  rw [h]

lemma parseGan_of_textStrategy_none {p : List Nat} (h : textStrategy p = none) :
    parseGanNotification p =
      if p.length = 1 ∧ p.headD 0 < 12 then [idxToMove.getD (p.headD 0) ""]
      else if p ≠ [] ∧ ∀ b ∈ p, b < 12 then p.map fun b => idxToMove.getD b ""
      else if (nibbleParse p).length > 0 then nibbleParse p else [] := by
  unfold parseGanNotification
  rw [h]

theorem decode_empty_characterization (p : List Nat) (hb : ∀ b ∈ p, b < 256) :
    (parseGanNotification p = [] →
      textStrategy p = some [] ∨ ∀ b ∈ p, b % 8 = 6 ∨ b % 8 = 7) ∧
    ((∃ b ∈ p, b % 8 ≤ 5) → textStrategy p ≠ some [] →
      parseGanNotification p ≠ []) := by
  constructor
  · intro h
    cases hts : textStrategy p with
    | some ts =>
      have hts' : ts = [] := (parseGan_of_textStrategy_some hts).symm.trans h
      exact Or.inl (by rw [hts'])
    | none =>
      rw [parseGan_of_textStrategy_none hts] at h
      right
      by_cases h1 : p.length = 1 ∧ p.headD 0 < 12
      · rw [if_pos h1] at h
        exact absurd h (by simp)
      · rw [if_neg h1] at h
        by_cases h2 : p ≠ [] ∧ ∀ b ∈ p, b < 12
        · rw [if_pos h2] at h
          simp only [List.map_eq_nil_iff] at h
          exact absurd h h2.1
        · rw [if_neg h2] at h
          intro b hbp
          have hnil : nibbleParse p = [] := by
            by_cases hl : (nibbleParse p).length > 0
            · rw [if_pos hl] at h
              exact h
            · exact List.eq_nil_of_length_eq_zero (by omega)
          have h6 := (nibbleParse_eq_nil_iff p).mp hnil b hbp
          have hm : b % 8 < 8 := Nat.mod_lt _ (by norm_num)
          omega
  · rintro ⟨b, hbp, hb5⟩ hts
    cases h : textStrategy p with
    | some ts =>
      rw [parseGan_of_textStrategy_some h]
      exact fun hnil => hts (by rw [h, hnil])
    | none =>
      rw [parseGan_of_textStrategy_none h]
      by_cases h1 : p.length = 1 ∧ p.headD 0 < 12
      · rw [if_pos h1]
        simp
      · rw [if_neg h1]
        by_cases h2 : p ≠ [] ∧ ∀ b ∈ p, b < 12
        · rw [if_pos h2]
          simpa using h2.1
        · rw [if_neg h2]
          have hne : nibbleParse p ≠ [] := by
            intro hnil
            have h6 := (nibbleParse_eq_nil_iff p).mp hnil b hbp
            omega
          rw [if_pos (List.length_pos.mpr hne)]
          exact hne

/-- Witness for `decode_empty_characterization`: byte 14 decodes to `[]`
with every low-3-bit field invalid, and the single byte 0 decodes to a
nonempty sequence. -/
theorem decode_empty_characterization_witness :
    (textStrategy [14] = some [] ∨ ∀ b ∈ ([14] : List Nat), b % 8 = 6 ∨ b % 8 = 7) ∧
    parseGanNotification [0] ≠ [] :=
  ⟨(decode_empty_characterization [14] (by decide)).1 (by decide),
    (decode_empty_characterization [0] (by decide)).2
      ⟨0, by decide, by decide⟩ (by decide)⟩

end GanCube
